import Mathlib

/-!
Verification of the workflow execution engine and cron scheduler of the
agent-functions backend (`app/services/executor.py`, `app/services/scheduler.py`).

The Python code is shallowly embedded: dictionaries become association lists,
sets become duplicate-free string lists, the async tick loop becomes a
fuel-indexed recursion, and the outcome of dispatching one step (which in the
source goes through `_execute_step` and a type-tag handler) is abstracted by an
oracle `exec : String → Dict → Bool × Dict` giving each step's `(success,
output)` pair, exactly the shape `_execute_step` returns.
-/

namespace AgentFunctions

/-- JSON-like values stored in step configs, step outputs and inputs. -/
inductive JVal where
  | s (v : String)
  | b (v : Bool)
  | n (v : Int)
  | o (fields : List (String × JVal))

instance : Inhabited JVal := ⟨.s ""⟩

/-- Python `value == some_string` where `value` is an arbitrary JSON value:
true exactly when `value` is the string `c`. -/
def JVal.isStr : JVal → String → Bool
  | .s v, c => v = c
  | _, _ => false

/-- A Python dict with string keys, as the engine consumes and produces. -/
abbrev Dict := List (String × JVal)

/-- Python dict read `d.get(k)`: first binding of `k` in the association list. -/
def getEntry {α : Type} (d : List (String × α)) (k : String) : Option α :=
  match d with
  | [] => none
  | (k', v) :: rest => if k' = k then some v else getEntry rest k

/-- Python dict write of `v` under key `k`: overwrite the binding if present (keeping its position,
as Python dict assignment does), otherwise append it. -/
def setEntry {α : Type} (d : List (String × α)) (k : String) (v : α) : List (String × α) :=
  if d.any (fun e => e.1 = k) then
    d.map (fun e => if e.1 = k then (k, v) else e)
  else d ++ [(k, v)]

/-- Python set `add`: sets are modelled as duplicate-free lists. -/
def addToSet (l : List String) (x : String) : List String :=
  if x ∈ l then l else l ++ [x]

/-- Python truthiness of a JSON value, as used by `step_data.get("critical", False)`
in a boolean position. -/
def truthy : JVal → Bool
  | .s v => v ≠ ""
  | .b v => v
  | .n v => v ≠ 0
  | .o f => ¬ f.isEmpty

/-- A step of a workflow definition. The engine reads the `id`, `name`, `type`,
`config` and top-level `critical` keys of the step dict; `depends_on` appears in
the external schema but is never read by `_build_dependency_graph`. -/
structure StepDef where
  id : String
  name : String
  stepType : String
  config : Dict
  /-- The step dict's top-level `"critical"` entry, if present. -/
  critical : Option JVal
  dependsOn : List String
  deriving Inhabited

/-- A connection (edge) of a workflow definition. -/
structure Connection where
  fromStep : String
  toStep : String
  condition : Option String
  deriving Inhabited

/-- Python truthiness of `connection.get("condition")`. -/
def truthyOptStr : Option String → Bool
  | none => false
  | some s => s ≠ ""

/-- A node of the dependency graph built by `_build_dependency_graph`. -/
structure GraphNode where
  predecessors : List String
  successors : List String
  /-- list of `(step_id, condition)` pairs -/
  conditionalSuccessors : List (String × String)
  step : StepDef
  deriving Inhabited

/-- The dependency graph: a dict from step id to node, in insertion order. -/
abbrev Graph := List (String × GraphNode)

def emptyNode (s : StepDef) : GraphNode :=
  { predecessors := [], successors := [], conditionalSuccessors := [], step := s }

/-- Dict assignment of a fresh node under a step id. -/
def insertNode (g : Graph) (k : String) (n : GraphNode) : Graph := setEntry g k n

/-- Update the node stored under `k`, if present. -/
def updateNode (g : Graph) (k : String) (f : GraphNode → GraphNode) : Graph :=
  g.map (fun e => if e.1 = k then (e.1, f e.2) else e)

/-- One iteration of the `for connection in connections` loop of
`_build_dependency_graph`: conditional edges are recorded as
`conditional_successors` of `from` (and as a predecessor of `to`);
unconditional edges as `successors` of `from` (and a predecessor of `to`).
Empty `from`/`to` ids and absent/empty conditions follow Python truthiness. -/
def addConnection (g : Graph) (c : Connection) : Graph :=
  if c.fromStep ≠ "" ∧ c.toStep ≠ "" then
    if truthyOptStr c.condition then
      let cond := c.condition.getD ""
      let g1 :=
        if (getEntry g c.fromStep).isSome then
          updateNode g c.fromStep (fun n =>
            { n with conditionalSuccessors := n.conditionalSuccessors ++ [(c.toStep, cond)] })
        else g
      if (getEntry g1 c.toStep).isSome then
        updateNode g1 c.toStep (fun n => { n with predecessors := n.predecessors ++ [c.fromStep] })
      else g1
    else
      let g1 :=
        if (getEntry g c.fromStep).isSome then
          updateNode g c.fromStep (fun n => { n with successors := n.successors ++ [c.toStep] })
        else g
      if (getEntry g1 c.toStep).isSome then
        updateNode g1 c.toStep (fun n => { n with predecessors := n.predecessors ++ [c.fromStep] })
      else g1
  else g

/-- One iteration of the legacy linear-chaining loop (used only when the
connection list is empty): step `i` becomes predecessor of step `i+1`. -/
def addLegacyEdge (g : Graph) (cur next : String) : Graph :=
  if cur ≠ "" ∧ next ≠ "" then
    let g1 :=
      if (getEntry g cur).isSome then
        updateNode g cur (fun n => { n with successors := n.successors ++ [next] })
      else g
    if (getEntry g1 next).isSome then
      updateNode g1 next (fun n => { n with predecessors := n.predecessors ++ [cur] })
    else g1
  else g

/-- The graph builder `_build_dependency_graph`: initialize one node per step (steps with a falsy
id are skipped), add every connection, and, when there are no connections at
all, fall back to chaining the steps in list order. -/
def buildDependencyGraph (steps : List StepDef) (connections : List Connection) : Graph :=
  let g := steps.foldl (fun g s => if s.id ≠ "" then insertNode g s.id (emptyNode s) else g) []
  let g := connections.foldl addConnection g
  if connections.isEmpty then
    (steps.zip steps.tail).foldl (fun g p => addLegacyEdge g p.1.id p.2.id) g
  else g

/-! ## The execution engine (`WorkflowEngine._execute_workflow_graph`) -/

/-- The result recorded in `context["steps_results"]` for one finished step. -/
structure StepResult where
  success : Bool
  output : Dict
  executedInParallel : Bool
  parallelGroup : List String
  deriving Inhabited

/-- The engine's per-run mutable state: the `completed` and `skipped` sets, the
`step_outputs` dict (seeded with `__initial__`), the recorded step results and
branches taken, and — for the Execution Log Sink — a count of how many log
events have been emitted together with the records that actually persisted
(`_log_execution` swallows persistence failures, so a failed write only means
the record is missing; nothing else changes). -/
structure EngineState where
  completed : List String
  skipped : List String
  stepOutputs : List (String × Dict)
  stepsResults : List (String × StepResult)
  branchesTaken : List (String × JVal)
  logCount : Nat
  persistedLogs : List (String × String)
  deriving Inhabited

/-- Emit one log event through `_log_execution`: the event always consumes one
slot; whether the `ExecutionLog` row persists depends on the database
(`persistOk`), and a failure is rolled back and swallowed. -/
def emitLog (persistOk : Nat → Bool) (st : EngineState) (level msg : String) : EngineState :=
  { st with
    logCount := st.logCount + 1
    persistedLogs :=
      if persistOk st.logCount then st.persistedLogs ++ [(level, msg)] else st.persistedLogs }

/-- The branch taken by predecessor `predId`, as `get_next_steps` computes it:
`step_outputs.get(pred_id, empty).get("branch")`, defaulting to the string
`"default"` when the key is absent. -/
def branchTakenOf (stepOutputs : List (String × Dict)) (predId : String) : JVal :=
  let predOutput := (getEntry stepOutputs predId).getD []
  match getEntry predOutput "branch" with
  | none => .s "default"
  | some v => v

/-- The per-predecessor branch check of `get_next_steps`: if predecessor
`predId` has conditional successors, `stepId` stays eligible only when some
conditional edge to it carries the taken branch label or the wildcard `"*"`,
or when `stepId` is also an unconditional successor of `predId`. -/
def eligibleForPred (g : Graph) (stepOutputs : List (String × Dict))
    (predId stepId : String) : Bool :=
  match getEntry g predId with
  | none => true
  | some pd =>
    if pd.conditionalSuccessors.isEmpty then true
    else
      let bt := branchTakenOf stepOutputs predId
      let isInBranch := pd.conditionalSuccessors.any
        (fun sc => decide (sc.1 = stepId) && (bt.isStr sc.2 || decide (sc.2 = "*")))
      isInBranch || decide (stepId ∈ pd.successors)

/-- One iteration of the `for step_id, data in dependency_graph.items()` loop of
`get_next_steps`, acting on the accumulator `(next_steps, skipped_steps)`. -/
def gnsStep (g : Graph) (completed : List String) (stepOutputs : List (String × Dict))
    (acc : List String × List String) (e : String × GraphNode) : List String × List String :=
  if e.1 ∈ completed ∨ e.1 ∈ acc.2 then acc
  else if ∀ p ∈ e.2.predecessors, p ∈ completed then
    if ∀ p ∈ e.2.predecessors, eligibleForPred g stepOutputs p e.1 = true then
      (acc.1 ++ [e.1], acc.2)
    else (acc.1, acc.2 ++ [e.1])
  else acc

/-- The ready-set computation `get_next_steps`: returns the ready list together with the (grown) skipped
set — the Python closure mutates `skipped_steps` in place while it scans. -/
def getNextSteps (g : Graph) (completed skipped : List String)
    (stepOutputs : List (String × Dict)) : List String × List String :=
  g.foldl (gnsStep g completed stepOutputs) ([], skipped)

/-- Reading `step_data.get("critical", False)` in boolean position: the step dict's
top-level `critical` entry, under Python truthiness. Note this reads the step
map itself, not `step["config"]`. -/
def criticalFlag (s : StepDef) : Bool :=
  match s.critical with
  | none => false
  | some v => truthy v

/-- Input assembly `_get_step_input`: no predecessors → the initial input; exactly one →
that predecessor's recorded output (the empty dict if none was recorded); several →
a dict keyed by predecessor id holding each recorded output. -/
def getStepInput (stepId : String) (g : Graph) (stepOutputs : List (String × Dict))
    (initialInput : Dict) : Dict :=
  let predecessors := ((getEntry g stepId).getD default).predecessors
  match predecessors with
  | [] => initialInput
  | [p] => (getEntry stepOutputs p).getD []
  | _ =>
    predecessors.foldl
      (fun acc p =>
        match getEntry stepOutputs p with
        | some o => setEntry acc p (.o o)
        | none => acc)
      []

/-- Process one finished step exactly as the body of the tick loop does
(the single-step path and the parallel path perform the same updates): record
the result, record a branch if the successful output has one, add the step to
`completed` unconditionally, store its output only on success, and signal an
abort when the step failed and its `critical` flag is truthy. -/
def processOneStep (persistOk : Nat → Bool) (g : Graph)
    (exec : String → Dict → Bool × Dict) (parallel : Bool) (group : List String)
    (initialInput : Dict) (st : EngineState) (sid : String) : EngineState × Bool :=
  let nd := (getEntry g sid).getD default
  let initIn := if parallel then (getEntry st.stepOutputs "__initial__").getD [] else initialInput
  let stepInput := getStepInput sid g st.stepOutputs initIn
  let r := exec sid stepInput
  let st := emitLog persistOk st "INFO" ("step_start:" ++ sid)
  let st :=
    if r.1 then emitLog persistOk st "INFO" ("step_complete:" ++ sid)
    else emitLog persistOk st "ERROR" ("step_error:" ++ sid)
  let st := { st with
    stepsResults := setEntry st.stepsResults sid
      ⟨r.1, r.2, parallel, if parallel then group else []⟩ }
  let st :=
    match getEntry r.2 "branch" with
    | some bv =>
      if r.1 then
        emitLog persistOk { st with branchesTaken := setEntry st.branchesTaken sid bv }
          "INFO" ("branch:" ++ sid)
      else st
    | none => st
  let st := { st with completed := addToSet st.completed sid }
  let st := if r.1 then { st with stepOutputs := setEntry st.stepOutputs sid r.2 } else st
  if !r.1 && criticalFlag nd.step then
    (emitLog persistOk st "WARNING" ("critical_abort:" ++ sid), true)
  else (st, false)

/-- Process a whole ready batch in order; a critical failure aborts
immediately, leaving the rest of the batch unprocessed (in the source this is
the `return False` inside the results loop). -/
def processBatch (persistOk : Nat → Bool) (g : Graph)
    (exec : String → Dict → Bool × Dict) (parallel : Bool) (group : List String)
    (initialInput : Dict) : List String → EngineState → EngineState × Bool
  | [], st => (st, false)
  | sid :: rest, st =>
    let r := processOneStep persistOk g exec parallel group initialInput st sid
    if r.2 then (r.1, true)
    else processBatch persistOk g exec parallel group initialInput rest r.1

/-- The final success check `any_step_failed`: some recorded result outside `skipped` has
`success = False`. -/
def anyStepFailed (st : EngineState) : Bool :=
  st.stepsResults.any (fun e => !(decide (e.1 ∈ st.skipped)) && !e.2.success)

/-- Install the grown skipped set returned by `get_next_steps` and emit the
"Skipping step …" log line for each newly skipped step. -/
def applySkips (persistOk : Nat → Bool) (st : EngineState) (newSkipped : List String) :
    EngineState :=
  (newSkipped.drop st.skipped.length).foldl
    (fun s sid => emitLog persistOk s "INFO" ("skip:" ++ sid))
    { st with skipped := newSkipped }

/-- The tick loop of `_execute_workflow_graph`, with an explicit fuel bound on
the number of ticks: compute the ready set (folding newly skipped steps into
the state and logging each), stop when it is empty, otherwise run the batch
(single step in line, several in parallel) and repeat; a critical failure
returns overall failure at once, and natural termination returns the
negation of `any_step_failed`. -/
def runLoop (persistOk : Nat → Bool) (g : Graph) (exec : String → Dict → Bool × Dict)
    (initialInput : Dict) : Nat → EngineState → EngineState × Bool
  | 0, st => (st, !anyStepFailed st)
  | fuel + 1, st =>
    let rs := getNextSteps g st.completed st.skipped st.stepOutputs
    let st := applySkips persistOk st rs.2
    if rs.1.isEmpty then (st, !anyStepFailed st)
    else
      let st := if rs.1.length > 1 then emitLog persistOk st "INFO" "parallel" else st
      let r := processBatch persistOk g exec (rs.1.length > 1) rs.1 initialInput rs.1 st
      if r.2 then (r.1, false)
      else runLoop persistOk g exec initialInput fuel r.1

/-- The engine state at the top of `_execute_workflow_graph`. -/
def initialState (initialInput : Dict) : EngineState :=
  { completed := [], skipped := [], stepOutputs := [("__initial__", initialInput)]
    stepsResults := [], branchesTaken := [], logCount := 0, persistedLogs := [] }

/-- Entry point `_execute_workflow_graph`: log the workflow start and drive the tick loop. -/
def executeWorkflowGraph (persistOk : Nat → Bool) (g : Graph)
    (exec : String → Dict → Bool × Dict) (initialInput : Dict) (fuel : Nat) :
    EngineState × Bool :=
  runLoop persistOk g exec initialInput fuel
    (emitLog persistOk (initialState initialInput) "INFO" "workflow_start")

/-- The tick loop with the owning Execution row's status in scope. The source
loop runs against a database in which the Execution row (and its status, which
an external cancellation request may set to `"cancelled"`) is visible at every
tick, but `_execute_workflow_graph` never reads it; accordingly the parameter
is ignored, exactly as in the code. -/
def runLoopWithStatus (executionStatus : String) (persistOk : Nat → Bool) (g : Graph)
    (exec : String → Dict → Bool × Dict) (initialInput : Dict) (fuel : Nat)
    (st : EngineState) : EngineState × Bool :=
  runLoop persistOk g exec initialInput fuel st

/-! ## Broadcast collaborator and log sink (`_execute_step`, `_log_execution`,
tail of `execute_workflow`) -/

/-- Whether each of the two WebSocket broadcasts issued directly inside
`_execute_step`'s `try` block raises. -/
structure BroadcastBehavior where
  stepStartedRaises : Bool
  stepCompletedRaises : Bool

/-- The error-and-stack-trace output dict `_execute_step` returns
when its `try` block raises. -/
def errOutput (msg : String) : Dict :=
  [("error", .s msg), ("stack_trace", .s msg)]

/-- Step dispatch `_execute_step`, with the handler's own outcome given as
`handlerResult` (`.error` = the handler raised): the `broadcast_log` calls for
`step_started` and `step_completed` are awaited inside the same `try`/`except`
that guards the handler, so an exception in either broadcast is caught by the
step-level handler and returned as a failed step result. -/
def executeStep (bb : BroadcastBehavior) (handlerResult : Except String Dict) :
    Bool × Dict :=
  if bb.stepStartedRaises then (false, errOutput "broadcast step_started raised")
  else
    match handlerResult with
    | .error e => (false, errOutput e)
    | .ok out =>
      if bb.stepCompletedRaises then (false, errOutput "broadcast step_completed raised")
      else (true, out)

/-- Observable outcome of one `_log_execution` call. -/
structure LogOutcome where
  committed : Bool
  rolledBack : Bool
  broadcastDelivered : Bool
  raised : Bool

/-- The log sink `_log_execution`: add + flush + commit the `ExecutionLog` row, then
broadcast, all inside one `try`; any exception is logged locally, the session
rolled back, and never re-raised. A persistence failure therefore skips the
broadcast; a broadcast failure happens after the commit. -/
def logExecution (persistRaises broadcastRaises : Bool) : LogOutcome :=
  if persistRaises then
    { committed := false, rolledBack := true, broadcastDelivered := false, raised := false }
  else if broadcastRaises then
    { committed := true, rolledBack := true, broadcastDelivered := false, raised := false }
  else
    { committed := true, rolledBack := false, broadcastDelivered := true, raised := false }

/-- The tail of `WorkflowEngine.execute_workflow` (after the final status
update): `broadcast_run_completion` is awaited with no `try`/`except` around
it, so a transport error there propagates to the engine's caller instead of
returning the run's context. -/
def executeWorkflowCompletion (broadcastRunCompletionRaises : Bool) (success : Bool) :
    Except String Bool :=
  if broadcastRunCompletionRaises then .error "broadcast_run_completion raised"
  else .ok success

/-! ## Scheduler (`app/services/scheduler.py`) -/

/-- An Execution row as the scheduler reads and creates it (`started_at` is the
row-creation time, by the model's `server_default=func.now()`). Times are UTC
seconds. -/
structure ExecutionRec where
  workflowId : String
  executedBy : String
  startedAt : Nat
  deriving Inhabited

structure ScheduleRec where
  id : String
  workflowId : String
  deriving Inhabited

/-- Modelled from the spec: `croniter` (an external library; its use in
`_process_schedule` is `get_prev` relative to `now`) computes, for the cron
expression `* * * * *` — "fires every minute" per the cron syntax of §6 —
the previous fire time: the last minute boundary strictly before `now`. -/
def cronPrevEveryMinute (now : Nat) : Nat :=
  if now % 60 = 0 then now - 60 else now - now % 60

/-- The duplicate-check window of `_is_already_executed`: `window_start`
truncates the scheduled time to its minute; `window_end` is
`window_start.replace(minute=window_start.minute + 1)`, which raises a
`ValueError` when the minute is 59, since `datetime.replace` requires
`0 ≤ minute ≤ 59`. -/
def timeWindow (scheduledTime : Nat) : Except String (Nat × Nat) :=
  let windowStart := scheduledTime - scheduledTime % 60
  if windowStart / 60 % 60 + 1 ≤ 59 then .ok (windowStart, windowStart + 60)
  else .error "ValueError: minute must be in 0..59"

/-- The idempotency guard `_is_already_executed`: is there an Execution of this workflow, initiated
by `scheduler:<schedule-id>`, whose `started_at` lies in the window? -/
def isAlreadyExecuted (executions : List ExecutionRec) (sched : ScheduleRec)
    (scheduledTime : Nat) : Except String Bool :=
  match timeWindow scheduledTime with
  | .error e => .error e
  | .ok w =>
    .ok (executions.any fun ex =>
      decide (ex.workflowId = sched.workflowId) &&
      decide (ex.executedBy = "scheduler:" ++ sched.id) &&
      decide (w.1 ≤ ex.startedAt) && decide (ex.startedAt < w.2))

def scanIntervalSeconds : Nat := 60

/-- The scan body `_process_schedule` for a schedule with cron `* * * * *`, returning the
execution store after the scan: if the previous fire is within the scan
interval plus the 10-second buffer, run the idempotency check and, when it
reports no duplicate, create the Execution (tagged `scheduler:<id>`, started
now). An exception from `_is_already_executed` propagates and is caught by the
per-schedule handler in `_process_scheduled_workflows`, which only logs it —
so the scan creates nothing for that schedule. -/
def processSchedule (executions : List ExecutionRec) (sched : ScheduleRec) (now : Nat) :
    List ExecutionRec :=
  let prevTime := cronPrevEveryMinute now
  let timeDiff := now - prevTime
  if timeDiff ≤ scanIntervalSeconds + 10 then
    match isAlreadyExecuted executions sched prevTime with
    | .error _ => executions
    | .ok true => executions
    | .ok false =>
      executions ++ [{ workflowId := sched.workflowId
                       executedBy := "scheduler:" ++ sched.id
                       startedAt := now }]
  else executions

/-- The executions created for workflow `w` by schedule `sid` whose start time
falls inside calendar minute `m`. -/
def executionsInMinute (executions : List ExecutionRec) (sched : ScheduleRec) (m : Nat) :
    List ExecutionRec :=
  executions.filter fun ex =>
    decide (ex.workflowId = sched.workflowId) &&
    decide (ex.executedBy = "scheduler:" ++ sched.id) &&
    decide (ex.startedAt / 60 = m)

/-- The branch-eligibility rule phrased as the specification states it: for
every predecessor `p` of `s` that has conditional successors, either some
conditional edge `p → s` carries the label `p` emitted (defaulting to
`"default"`) or the wildcard `"*"`, or `s` is also an unconditional successor
of `p`. -/
def specEligible (g : Graph) (outputs : List (String × Dict)) (p s : String) : Prop :=
  ∀ pd, getEntry g p = some pd → pd.conditionalSuccessors ≠ [] →
    ((∃ c, (s, c) ∈ pd.conditionalSuccessors ∧
        (branchTakenOf outputs p = .s c ∨ c = "*")) ∨ s ∈ pd.successors)

/-- The run-relevant part of the engine state: everything except the log
bookkeeping. -/
def EngineState.core (st : EngineState) :
    List String × List String × List (String × Dict) × List (String × StepResult) ×
      List (String × JVal) :=
  (st.completed, st.skipped, st.stepOutputs, st.stepsResults, st.branchesTaken)

/-! ## Association-list lemmas -/

theorem getEntry_append {α : Type} (d₁ d₂ : List (String × α)) (k : String) :
    getEntry (d₁ ++ d₂) k =
      match getEntry d₁ k with
      | some v => some v
      | none => getEntry d₂ k := by
  induction d₁ with
  | nil => simp [getEntry]
  | cons e rest ih =>
    by_cases hk : e.1 = k
    · simp [getEntry, hk]
    · simp [getEntry, hk, ih]

theorem getEntry_map_replace {α : Type} (d : List (String × α)) (k : String) (v : α) :
    getEntry (d.map (fun e => if e.1 = k then (k, v) else e)) k =
      (getEntry d k).map (fun _ => v) := by
  induction d with
  | nil => simp [getEntry]
  | cons e rest ih =>
    by_cases hk : e.1 = k
    · simp only [List.map_cons, if_pos hk]
      simp [getEntry, hk]
    · simp only [List.map_cons, if_neg hk]
      simp [getEntry, hk, ih]

theorem getEntry_map_replace_ne {α : Type} (d : List (String × α)) (k k' : String) (v : α)
    (h : k' ≠ k) :
    getEntry (d.map (fun e => if e.1 = k then (k, v) else e)) k' = getEntry d k' := by
  induction d with
  | nil => simp [getEntry]
  | cons e rest ih =>
    by_cases hk : e.1 = k
    · have hne : ¬ (k = k') := fun hkk => h hkk.symm
      have hne2 : ¬ (e.1 = k') := hk ▸ hne
      simp only [List.map_cons, if_pos hk]
      simp [getEntry, hne, hne2, ih]
    · simp only [List.map_cons, if_neg hk]
      by_cases hk' : e.1 = k'
      · simp [getEntry, hk']
      · simp [getEntry, hk', ih]

theorem any_key_iff {α : Type} (d : List (String × α)) (k : String) :
    d.any (fun e => decide (e.1 = k)) = true ↔ (getEntry d k).isSome := by
  induction d with
  | nil => simp [getEntry]
  | cons e rest ih =>
    by_cases hk : e.1 = k
    · simp [getEntry, hk]
    · simp [getEntry, hk, ih]

theorem getEntry_setEntry_self {α : Type} (d : List (String × α)) (k : String) (v : α) :
    getEntry (setEntry d k v) k = some v := by
  unfold setEntry
  by_cases hd : d.any (fun e => decide (e.1 = k)) = true
  · rw [if_pos hd, getEntry_map_replace]
    rcases Option.isSome_iff_exists.mp ((any_key_iff d k).mp hd) with ⟨w, hw⟩
    simp [hw]
  · rw [if_neg hd, getEntry_append]
    have : ¬ (getEntry d k).isSome := fun hs => hd ((any_key_iff d k).mpr hs)
    rw [Option.not_isSome_iff_eq_none] at this
    simp [this, getEntry]

theorem getEntry_setEntry_ne {α : Type} (d : List (String × α)) (k k' : String) (v : α)
    (h : k' ≠ k) : getEntry (setEntry d k v) k' = getEntry d k' := by
  unfold setEntry
  by_cases hd : d.any (fun e => decide (e.1 = k)) = true
  · rw [if_pos hd, getEntry_map_replace_ne _ _ _ _ h]
  · rw [if_neg hd, getEntry_append]
    cases hg : getEntry d k' with
    | some w => rfl
    | none =>
      have hne : k ≠ k' := Ne.symm h
      simp [getEntry, hne]

theorem mem_addToSet {l : List String} {x y : String} :
    y ∈ addToSet l x ↔ y ∈ l ∨ y = x := by
  unfold addToSet
  by_cases h : x ∈ l
  · simp only [h, if_pos]
    constructor
    · exact Or.inl
    · rintro (hy | rfl) <;> [exact hy; exact h]
  · simp [h]

/-! ## C9: step-input combination -/

theorem combine_preserve (outs : List (String × Dict)) (l : List String)
    (acc : Dict) (p : String) (hp : p ∉ l) :
    getEntry (l.foldl
      (fun acc q =>
        match getEntry outs q with
        | some o => setEntry acc q (.o o)
        | none => acc) acc) p = getEntry acc p := by
  induction l generalizing acc with
  | nil => rfl
  | cons q rest ih =>
    have hpq : p ≠ q := fun hpq => hp (hpq ▸ List.mem_cons_self q rest)
    have hprest : p ∉ rest := fun hr => hp (List.mem_cons_of_mem q hr)
    simp only [List.foldl_cons]
    cases hq : getEntry outs q with
    | none => exact ih _ hprest
    | some o => rw [ih _ hprest, getEntry_setEntry_ne _ _ _ _ hpq]

theorem combine_lookup (outs : List (String × Dict)) (preds : List String)
    (acc : Dict) (p : String) (o : Dict)
    (hnd : preds.Nodup) (hp : p ∈ preds) (ho : getEntry outs p = some o) :
    getEntry (preds.foldl
      (fun acc q =>
        match getEntry outs q with
        | some o => setEntry acc q (.o o)
        | none => acc) acc) p = some (.o o) := by
  induction preds generalizing acc with
  | nil => cases hp
  | cons q rest ih =>
    rcases List.mem_cons.mp hp with rfl | hpr
    · have hprest : p ∉ rest := (List.nodup_cons.mp hnd).1
      simp only [List.foldl_cons, ho]
      rw [combine_preserve outs rest _ p hprest, getEntry_setEntry_self]
    · simp only [List.foldl_cons]
      cases hq : getEntry outs q <;>
        exact ih _ (List.nodup_cons.mp hnd).2 hpr

/-- C9: the input passed to a dispatched step's handler is the initial input
when the step has no predecessors; the recorded output of its predecessor when
it has exactly one; and, with two or more predecessors, a map keyed by
predecessor id containing each predecessor's recorded output. -/
theorem step_input_combination
    (g : Graph) (sid : String) (nd : GraphNode) (outs : List (String × Dict)) (init : Dict)
    (hnd : getEntry g sid = some nd) :
    (nd.predecessors = [] → getStepInput sid g outs init = init) ∧
    (∀ p, nd.predecessors = [p] → ∀ o, getEntry outs p = some o →
      getStepInput sid g outs init = o) ∧
    (2 ≤ nd.predecessors.length → nd.predecessors.Nodup →
      ∀ p ∈ nd.predecessors, ∀ o, getEntry outs p = some o →
        getEntry (getStepInput sid g outs init) p = some (.o o)) := by
  refine ⟨?_, ?_, ?_⟩
  · intro hp
    simp [getStepInput, hnd, hp]
  · intro p hp o ho
    simp [getStepInput, hnd, hp, ho]
  · intro hlen hnodup p hp o ho
    rcases hpreds : nd.predecessors with _ | ⟨p₁, _ | ⟨p₂, rest⟩⟩
    · simp [hpreds] at hlen
    · simp [hpreds] at hlen
    · rw [hpreds] at hnodup hp
      simp only [getStepInput, hnd, Option.getD_some, hpreds]
      exact combine_lookup outs (p₁ :: p₂ :: rest) [] p o hnodup hp ho

/-- Witness for C9 at a concrete graph: a step with two predecessors whose
recorded outputs both appear in the combined input under their own ids. -/
theorem step_input_combination_witness :
    getEntry
      (getStepInput "s"
        [("s", { predecessors := ["p", "q"], successors := [], conditionalSuccessors := []
                 step := ⟨"s", "s", "script", [], none, []⟩ })]
        [("p", [("a", .s "1")]), ("q", [("b", .s "2")])] [])
      "p" = some (.o [("a", .s "1")]) := by
  exact (step_input_combination
    [("s", { predecessors := ["p", "q"], successors := [], conditionalSuccessors := []
             step := ⟨"s", "s", "script", [], none, []⟩ })]
    "s" _ [("p", [("a", .s "1")]), ("q", [("b", .s "2")])] [] rfl).2.2
    (by decide) (by decide) "p" (by decide) _ rfl

/-! ## Structure of the ready-set fold (`get_next_steps`) -/

theorem gnsStep_guard (g : Graph) (c : List String) (o : List (String × Dict))
    (acc : List String × List String) (e : String × GraphNode)
    (h : e.1 ∈ c ∨ e.1 ∈ acc.2) : gnsStep g c o acc e = acc := by
  unfold gnsStep; rw [if_pos h]

theorem gnsStep_notready (g : Graph) (c : List String) (o : List (String × Dict))
    (acc : List String × List String) (e : String × GraphNode)
    (h1 : ¬(e.1 ∈ c ∨ e.1 ∈ acc.2)) (h2 : ¬ ∀ p ∈ e.2.predecessors, p ∈ c) :
    gnsStep g c o acc e = acc := by
  unfold gnsStep; rw [if_neg h1, if_neg h2]

theorem gnsStep_run (g : Graph) (c : List String) (o : List (String × Dict))
    (acc : List String × List String) (e : String × GraphNode)
    (h1 : ¬(e.1 ∈ c ∨ e.1 ∈ acc.2)) (h2 : ∀ p ∈ e.2.predecessors, p ∈ c)
    (h3 : ∀ p ∈ e.2.predecessors, eligibleForPred g o p e.1 = true) :
    gnsStep g c o acc e = (acc.1 ++ [e.1], acc.2) := by
  unfold gnsStep; rw [if_neg h1, if_pos h2, if_pos h3]

theorem gnsStep_skip (g : Graph) (c : List String) (o : List (String × Dict))
    (acc : List String × List String) (e : String × GraphNode)
    (h1 : ¬(e.1 ∈ c ∨ e.1 ∈ acc.2)) (h2 : ∀ p ∈ e.2.predecessors, p ∈ c)
    (h3 : ¬ ∀ p ∈ e.2.predecessors, eligibleForPred g o p e.1 = true) :
    gnsStep g c o acc e = (acc.1, acc.2 ++ [e.1]) := by
  unfold gnsStep; rw [if_neg h1, if_pos h2, if_neg h3]

theorem gnsStep_shape (g : Graph) (c : List String) (o : List (String × Dict))
    (acc : List String × List String) (e : String × GraphNode) :
    gnsStep g c o acc e = acc ∨ gnsStep g c o acc e = (acc.1 ++ [e.1], acc.2) ∨
    gnsStep g c o acc e = (acc.1, acc.2 ++ [e.1]) := by
  by_cases h1 : e.1 ∈ c ∨ e.1 ∈ acc.2
  · exact Or.inl (gnsStep_guard g c o acc e h1)
  · by_cases h2 : ∀ p ∈ e.2.predecessors, p ∈ c
    · by_cases h3 : ∀ p ∈ e.2.predecessors, eligibleForPred g o p e.1 = true
      · exact Or.inr (Or.inl (gnsStep_run g c o acc e h1 h2 h3))
      · exact Or.inr (Or.inr (gnsStep_skip g c o acc e h1 h2 h3))
    · exact Or.inl (gnsStep_notready g c o acc e h1 h2)

/-- Both accumulator components of the ready-set fold only ever grow. -/
theorem gns_foldl_grow (g : Graph) (c : List String) (o : List (String × Dict))
    (l : List (String × GraphNode)) :
    ∀ acc : List String × List String,
      (∃ m, (l.foldl (gnsStep g c o) acc).1 = acc.1 ++ m) ∧
      (∃ m, (l.foldl (gnsStep g c o) acc).2 = acc.2 ++ m) := by
  induction l with
  | nil => exact fun acc => ⟨⟨[], by simp⟩, ⟨[], by simp⟩⟩
  | cons e rest ih =>
    intro acc
    simp only [List.foldl_cons]
    rcases gnsStep_shape g c o acc e with hs | hs | hs <;> rw [hs]
    · exact ih acc
    · obtain ⟨⟨m₁, hm₁⟩, ⟨m₂, hm₂⟩⟩ := ih (acc.1 ++ [e.1], acc.2)
      exact ⟨⟨[e.1] ++ m₁, by simp [hm₁]⟩, ⟨m₂, hm₂⟩⟩
    · obtain ⟨⟨m₁, hm₁⟩, ⟨m₂, hm₂⟩⟩ := ih (acc.1, acc.2 ++ [e.1])
      exact ⟨⟨m₁, hm₁⟩, ⟨[e.1] ++ m₂, by simp [hm₂]⟩⟩

/-- Entries whose key differs from `s` never add or remove `s` from either
component. -/
theorem gns_foldl_notmem (g : Graph) (c : List String) (o : List (String × Dict))
    (l : List (String × GraphNode)) (s : String) (hs : s ∉ l.map Prod.fst) :
    ∀ acc : List String × List String,
      (s ∈ (l.foldl (gnsStep g c o) acc).1 ↔ s ∈ acc.1) ∧
      (s ∈ (l.foldl (gnsStep g c o) acc).2 ↔ s ∈ acc.2) := by
  induction l with
  | nil => exact fun acc => ⟨Iff.rfl, Iff.rfl⟩
  | cons e rest ih =>
    intro acc
    have hse : s ≠ e.1 := by
      intro hcontra
      exact hs (by simp [hcontra])
    have hrest : s ∉ rest.map Prod.fst := fun hr => hs (by simp [hr])
    simp only [List.foldl_cons]
    rcases gnsStep_shape g c o acc e with hshape | hshape | hshape <;> rw [hshape]
    · exact ih hrest acc
    · obtain ⟨h₁, h₂⟩ := ih hrest (acc.1 ++ [e.1], acc.2)
      refine ⟨?_, h₂⟩
      rw [h₁]
      simp [hse]
    · obtain ⟨h₁, h₂⟩ := ih hrest (acc.1, acc.2 ++ [e.1])
      refine ⟨h₁, ?_⟩
      rw [h₂]
      simp [hse]

/-- Auxiliary for C8: if a pass of the ready-set fold starting from skipped set
`s₀` produces no ready step and final skipped set `s₁`, then a second pass
starting from `s₁` is a fixed point. -/
theorem gns_idem_aux (g : Graph) (c : List String) (o : List (String × Dict)) :
    ∀ (l : List (String × GraphNode)) (s₀ s₁ : List String),
      l.foldl (gnsStep g c o) ([], s₀) = ([], s₁) →
      l.foldl (gnsStep g c o) ([], s₁) = ([], s₁) := by
  intro l
  induction l with
  | nil =>
    intro s₀ s₁ h
    simp only [List.foldl_nil] at h
    simp only [List.foldl_nil, h]
  | cons e rest ih =>
    intro s₀ s₁ h
    simp only [List.foldl_cons] at h ⊢
    by_cases h1 : e.1 ∈ c ∨ e.1 ∈ s₀
    · rw [show gnsStep g c o ([], s₀) e = ([], s₀) from gnsStep_guard g c o ([], s₀) e h1] at h
      obtain ⟨_, ⟨m, hm⟩⟩ := gns_foldl_grow g c o rest ([], s₀)
      rw [h] at hm
      simp only at hm
      have hsub : e.1 ∈ c ∨ e.1 ∈ s₁ := by
        rcases h1 with hc | hsk
        · exact Or.inl hc
        · exact Or.inr (by rw [hm]; exact List.mem_append_left m hsk)
      rw [show gnsStep g c o ([], s₁) e = ([], s₁) from gnsStep_guard g c o ([], s₁) e hsub]
      exact ih s₀ s₁ h
    · by_cases h2 : ∀ p ∈ e.2.predecessors, p ∈ c
      · by_cases h3 : ∀ p ∈ e.2.predecessors, eligibleForPred g o p e.1 = true
        · rw [show gnsStep g c o ([], s₀) e = ([e.1], s₀) from
            gnsStep_run g c o ([], s₀) e h1 h2 h3] at h
          obtain ⟨⟨m, hm⟩, _⟩ := gns_foldl_grow g c o rest ([e.1], s₀)
          rw [h] at hm
          simp at hm
        · rw [show gnsStep g c o ([], s₀) e = ([], s₀ ++ [e.1]) from
            gnsStep_skip g c o ([], s₀) e h1 h2 h3] at h
          obtain ⟨_, ⟨m, hm⟩⟩ := gns_foldl_grow g c o rest ([], s₀ ++ [e.1])
          rw [h] at hm
          simp only at hm
          have he : e.1 ∈ s₁ := by
            rw [hm]
            simp
          rw [show gnsStep g c o ([], s₁) e = ([], s₁) from
            gnsStep_guard g c o ([], s₁) e (Or.inr he)]
          exact ih (s₀ ++ [e.1]) s₁ h
      · rw [show gnsStep g c o ([], s₀) e = ([], s₀) from
          gnsStep_notready g c o ([], s₀) e h1 h2] at h
        obtain ⟨_, ⟨m, hm⟩⟩ := gns_foldl_grow g c o rest ([], s₀)
        rw [h] at hm
        by_cases hg : e.1 ∈ c ∨ e.1 ∈ s₁
        · rw [show gnsStep g c o ([], s₁) e = ([], s₁) from gnsStep_guard g c o ([], s₁) e hg]
          exact ih s₀ s₁ h
        · rw [show gnsStep g c o ([], s₁) e = ([], s₁) from
            gnsStep_notready g c o ([], s₁) e hg h2]
          exact ih s₀ s₁ h

/-- C8: idempotent termination of the ready-set computation — when
`get_next_steps` returns the empty ready list (so the tick loop stops),
invoking it again on the resulting state (same completed set, the grown
skipped set, same step outputs) again returns the empty ready list and leaves
the skipped set unchanged. -/
theorem ready_set_idempotent (g : Graph) (completed skipped skipped' : List String)
    (stepOutputs : List (String × Dict))
    (h : getNextSteps g completed skipped stepOutputs = ([], skipped')) :
    getNextSteps g completed skipped' stepOutputs = ([], skipped') := by
  unfold getNextSteps at h ⊢
  exact gns_idem_aux g completed stepOutputs g skipped skipped' h

/-- Witness for C8: the final state of the branching scenario of §8 — after
the loop ends with completed `{A, B}` and skipped `{C}`, the ready-set
computation is at a fixed point. -/
theorem ready_set_idempotent_witness :
    getNextSteps
      (buildDependencyGraph
        [⟨"A", "A", "http", [], none, []⟩, ⟨"B", "B", "script", [], none, []⟩,
         ⟨"C", "C", "script", [], none, []⟩]
        [⟨"A", "B", some "success"⟩, ⟨"A", "C", some "error"⟩])
      ["A", "B"] ["C"]
      [("__initial__", []), ("A", [("branch", .s "success")]), ("B", [])] = ([], ["C"]) := by
  exact ready_set_idempotent
    (buildDependencyGraph
      [⟨"A", "A", "http", [], none, []⟩, ⟨"B", "B", "script", [], none, []⟩,
       ⟨"C", "C", "script", [], none, []⟩]
      [⟨"A", "B", some "success"⟩, ⟨"A", "C", some "error"⟩])
    ["A", "B"] ["C"] ["C"]
    [("__initial__", []), ("A", [("branch", .s "success")]), ("B", [])] rfl

/-! ## C1: branch-skip correctness -/

theorem isStr_iff (v : JVal) (c : String) : v.isStr c = true ↔ v = .s c := by
  cases v <;> simp [JVal.isStr]

theorem eligible_iff (g : Graph) (o : List (String × Dict)) (p s : String) :
    eligibleForPred g o p s = true ↔ specEligible g o p s := by
  unfold eligibleForPred specEligible
  cases hp : getEntry g p with
  | none => simp
  | some pd =>
    dsimp only
    by_cases he : pd.conditionalSuccessors.isEmpty
    · have he' : pd.conditionalSuccessors = [] := List.isEmpty_iff.mp he
      simp only [he, if_pos]
      constructor
      · intro _ pd' hpd'
        cases hpd'
        simp [he']
      · intro _
        trivial
    · rw [if_neg (by simpa using he)]
      constructor
      · intro h pd' hpd' _
        cases hpd'
        rcases Bool.or_eq_true _ _ |>.mp h with hin | hsucc
        · left
          rcases List.any_eq_true.mp hin with ⟨⟨s', c⟩, hmem, hpred⟩
          rcases Bool.and_eq_true _ _ |>.mp hpred with ⟨hs', hcond⟩
          have hs'' : s' = s := of_decide_eq_true hs'
          subst hs''
          refine ⟨c, hmem, ?_⟩
          rcases Bool.or_eq_true _ _ |>.mp hcond with hbt | hstar
          · exact Or.inl ((isStr_iff _ _).mp hbt)
          · exact Or.inr (of_decide_eq_true hstar)
        · exact Or.inr (of_decide_eq_true hsucc)
      · intro h
        rcases h pd rfl (by simpa using he) with ⟨c, hmem, hcond⟩ | hsucc
        · apply Bool.or_eq_true _ _ |>.mpr
          left
          apply List.any_eq_true.mpr
          refine ⟨(s, c), hmem, ?_⟩
          apply Bool.and_eq_true _ _ |>.mpr
          refine ⟨decide_eq_true rfl, ?_⟩
          apply Bool.or_eq_true _ _ |>.mpr
          rcases hcond with hbt | hstar
          · exact Or.inl ((isStr_iff _ _).mpr hbt)
          · exact Or.inr (decide_eq_true hstar)
        · exact Bool.or_eq_true _ _ |>.mpr (Or.inr (decide_eq_true hsucc))

/-- A step with its own entry in the fold list, not yet completed or skipped
and with all predecessors completed, lands in the ready list exactly when
every predecessor passes the branch check, and in the skipped set exactly
otherwise. -/
theorem gns_mem (g : Graph) (c : List String) (o : List (String × Dict))
    (s : String) (nd : GraphNode) (hc : s ∉ c) :
    ∀ l : List (String × GraphNode), (l.map Prod.fst).Nodup → (s, nd) ∈ l →
    ∀ acc : List String × List String, s ∉ acc.1 → s ∉ acc.2 →
      (∀ p ∈ nd.predecessors, p ∈ c) →
      ((s ∈ (l.foldl (gnsStep g c o) acc).1 ↔
          ∀ p ∈ nd.predecessors, eligibleForPred g o p s = true) ∧
       (s ∈ (l.foldl (gnsStep g c o) acc).2 ↔
          ¬ ∀ p ∈ nd.predecessors, eligibleForPred g o p s = true)) := by
  intro l
  induction l with
  | nil =>
    intro _ hmem
    cases hmem
  | cons e rest ih =>
    intro hkeys hmem acc ha1 ha2 hpred
    simp only [List.foldl_cons]
    rcases List.mem_cons.mp hmem with heq | hrest
    · cases heq.symm
      have hsrest : s ∉ rest.map Prod.fst := by
        simpa using (List.nodup_cons.mp hkeys).1
      have hguard : ¬ ((s, nd).1 ∈ c ∨ (s, nd).1 ∈ acc.2) := by
        simp only [not_or]
        exact ⟨hc, ha2⟩
      by_cases helig : ∀ p ∈ nd.predecessors, eligibleForPred g o p s = true
      · rw [gnsStep_run g c o acc (s, nd) hguard hpred helig]
        obtain ⟨m1, m2⟩ := gns_foldl_notmem g c o rest s hsrest (acc.1 ++ [s], acc.2)
        refine ⟨iff_of_true (m1.mpr (by simp)) helig, ?_⟩
        exact iff_of_false (fun h => ha2 (m2.mp h)) (fun h => h helig)
      · rw [gnsStep_skip g c o acc (s, nd) hguard hpred helig]
        obtain ⟨m1, m2⟩ := gns_foldl_notmem g c o rest s hsrest (acc.1, acc.2 ++ [s])
        refine ⟨iff_of_false (fun h => ha1 (m1.mp h)) helig, ?_⟩
        exact iff_of_true (m2.mpr (by simp)) helig
    · have hsrest : s ∈ rest.map Prod.fst := List.mem_map.mpr ⟨(s, nd), hrest, rfl⟩
      have hne : e.1 ≠ s := by
        intro hcontra
        exact (List.nodup_cons.mp hkeys).1 (hcontra ▸ hsrest)
      have hkr : (rest.map Prod.fst).Nodup := (List.nodup_cons.mp hkeys).2
      rcases gnsStep_shape g c o acc e with hshape | hshape | hshape <;> rw [hshape]
      · exact ih hkr hrest acc ha1 ha2 hpred
      · refine ih hkr hrest (acc.1 ++ [e.1], acc.2) ?_ ha2 hpred
        simp only [List.mem_append, List.mem_singleton, not_or]
        exact ⟨ha1, fun h => hne h.symm⟩
      · refine ih hkr hrest (acc.1, acc.2 ++ [e.1]) ha1 ?_ hpred
        simp only [List.mem_append, List.mem_singleton, not_or]
        exact ⟨ha2, fun h => hne h.symm⟩

/-- C1: branch-skip correctness of the ready-set computation. Concretely: in
the scenario where step A completes with `branch="success"` and has conditional
edges A→B (`"success"`) and A→C (`"error"`) and no unconditional edges, the
engine finishes with B in the completed set and C in the skipped set, never
the reverse. Generally: a step `s` whose predecessors are all completed is
placed in the ready list iff every predecessor with conditional successors has
a matching edge (taken label, defaulting to `"default"`, or wildcard `"*"`)
or lists `s` as an unconditional successor; otherwise `s` is moved to the
skipped set. -/
theorem branch_skip_correctness
    (g : Graph) (completed skipped : List String) (outputs : List (String × Dict))
    (s : String) (nd : GraphNode)
    (hkeys : (g.map Prod.fst).Nodup) (hnd : (s, nd) ∈ g)
    (hc : s ∉ completed) (hs : s ∉ skipped)
    (hpred : ∀ p ∈ nd.predecessors, p ∈ completed) :
    ((executeWorkflowGraph (fun _ => true)
        (buildDependencyGraph
          [⟨"A", "A", "http", [], none, []⟩, ⟨"B", "B", "script", [], none, []⟩,
           ⟨"C", "C", "script", [], none, []⟩]
          [⟨"A", "B", some "success"⟩, ⟨"A", "C", some "error"⟩])
        (fun sid _ => if sid = "A" then (true, [("branch", .s "success")]) else (true, []))
        [] 5).1.completed = ["A", "B"] ∧
     (executeWorkflowGraph (fun _ => true)
        (buildDependencyGraph
          [⟨"A", "A", "http", [], none, []⟩, ⟨"B", "B", "script", [], none, []⟩,
           ⟨"C", "C", "script", [], none, []⟩]
          [⟨"A", "B", some "success"⟩, ⟨"A", "C", some "error"⟩])
        (fun sid _ => if sid = "A" then (true, [("branch", .s "success")]) else (true, []))
        [] 5).1.skipped = ["C"]) ∧
    (s ∈ (getNextSteps g completed skipped outputs).1 ↔
      ∀ p ∈ nd.predecessors, specEligible g outputs p s) ∧
    (s ∈ (getNextSteps g completed skipped outputs).2 ↔
      ¬ ∀ p ∈ nd.predecessors, specEligible g outputs p s) := by
  have hmain := gns_mem g completed outputs s nd hc g hkeys hnd ([], skipped)
    (by simp) hs hpred
  have htrans : (∀ p ∈ nd.predecessors, eligibleForPred g outputs p s = true) ↔
      ∀ p ∈ nd.predecessors, specEligible g outputs p s :=
    forall₂_congr fun p _ => eligible_iff g outputs p s
  refine ⟨⟨rfl, rfl⟩, ?_, ?_⟩
  · rw [← htrans]
    exact hmain.1
  · rw [← htrans]
    exact hmain.2

/-- Witness for C1: in the scenario graph, at the state reached after A
completed with branch `"success"`, step B (conditional on `"success"`) is in
the ready list computed by `get_next_steps`. -/
theorem branch_skip_correctness_witness :
    ("B" ∈ (getNextSteps
      [("A", { predecessors := [], successors := []
               conditionalSuccessors := [("B", "success"), ("C", "error")]
               step := ⟨"A", "A", "http", [], none, []⟩ }),
       ("B", { predecessors := ["A"], successors := [], conditionalSuccessors := []
               step := ⟨"B", "B", "script", [], none, []⟩ }),
       ("C", { predecessors := ["A"], successors := [], conditionalSuccessors := []
               step := ⟨"C", "C", "script", [], none, []⟩ })]
      ["A"] [] [("__initial__", []), ("A", [("branch", .s "success")])]).1) := by
  refine ((branch_skip_correctness
    [("A", { predecessors := [], successors := []
             conditionalSuccessors := [("B", "success"), ("C", "error")]
             step := ⟨"A", "A", "http", [], none, []⟩ }),
     ("B", { predecessors := ["A"], successors := [], conditionalSuccessors := []
             step := ⟨"B", "B", "script", [], none, []⟩ }),
     ("C", { predecessors := ["A"], successors := [], conditionalSuccessors := []
             step := ⟨"C", "C", "script", [], none, []⟩ })]
    ["A"] [] [("__initial__", []), ("A", [("branch", .s "success")])]
    "B"
    { predecessors := ["A"], successors := [], conditionalSuccessors := []
      step := ⟨"B", "B", "script", [], none, []⟩ }
    (by decide)
    (List.mem_cons_of_mem _ (List.mem_cons_self _ _))
    (by decide) (by decide) (by decide)).2.1).mpr ?_
  intro p hp pd hpd _
  have hpA : p = "A" := List.mem_singleton.mp hp
  subst hpA
  have hA : pd = { predecessors := [], successors := []
                   conditionalSuccessors := [("B", "success"), ("C", "error")]
                   step := ⟨"A", "A", "http", [], none, []⟩ } :=
    (Option.some.inj hpd).symm
  subst hA
  exact Or.inl ⟨"success", by decide, Or.inl rfl⟩

/-! ## C4: completed-set membership vs success -/

@[simp] theorem emitLog_completed (p : Nat → Bool) (st : EngineState) (l m : String) :
    (emitLog p st l m).completed = st.completed := rfl

@[simp] theorem emitLog_skipped (p : Nat → Bool) (st : EngineState) (l m : String) :
    (emitLog p st l m).skipped = st.skipped := rfl

@[simp] theorem emitLog_stepOutputs (p : Nat → Bool) (st : EngineState) (l m : String) :
    (emitLog p st l m).stepOutputs = st.stepOutputs := rfl

@[simp] theorem emitLog_stepsResults (p : Nat → Bool) (st : EngineState) (l m : String) :
    (emitLog p st l m).stepsResults = st.stepsResults := rfl

@[simp] theorem emitLog_branchesTaken (p : Nat → Bool) (st : EngineState) (l m : String) :
    (emitLog p st l m).branchesTaken = st.branchesTaken := rfl

/-- C4 counterexample: a single-step run whose only step fails (`success =
False`) still ends with that step in the engine's completed set — the loop
adds every finished step to `completed` unconditionally, so membership does
not imply success (only `step_outputs` is gated on success, and the failed
result is still recorded). -/
theorem completed_implies_success_counterexample :
    ((executeWorkflowGraph (fun _ => true)
        (buildDependencyGraph [⟨"X", "X", "script", [], none, []⟩] [])
        (fun _ _ => (false, [("error", .s "boom")])) [] 5).1.completed = ["X"]) ∧
    ((getEntry (executeWorkflowGraph (fun _ => true)
        (buildDependencyGraph [⟨"X", "X", "script", [], none, []⟩] [])
        (fun _ _ => (false, [("error", .s "boom")])) [] 5).1.stepsResults "X").map
      (fun r => r.success) = some false) ∧
    ((executeWorkflowGraph (fun _ => true)
        (buildDependencyGraph [⟨"X", "X", "script", [], none, []⟩] [])
        (fun _ _ => (false, [("error", .s "boom")])) [] 5).2 = false) :=
  ⟨rfl, rfl, rfl⟩

/-- C4 amended: the engine adds every finished step to `completed` regardless
of success; the step's result (with its success flag) is always recorded in
`steps_results`, and its output is stored in `step_outputs` exactly when it
succeeded. -/
theorem completed_set_semantics
    (persistOk : Nat → Bool) (g : Graph) (exec : String → Dict → Bool × Dict)
    (parallel : Bool) (group : List String) (initialInput : Dict)
    (st : EngineState) (sid : String) (succ : Bool) (out : Dict)
    (hres : exec sid (getStepInput sid g st.stepOutputs
      (if parallel then (getEntry st.stepOutputs "__initial__").getD [] else initialInput)) =
      (succ, out)) :
    sid ∈ (processOneStep persistOk g exec parallel group initialInput st sid).1.completed ∧
    getEntry (processOneStep persistOk g exec parallel group initialInput st sid).1.stepsResults
        sid = some ⟨succ, out, parallel, if parallel then group else []⟩ ∧
    (succ = true →
      getEntry (processOneStep persistOk g exec parallel group initialInput st sid).1.stepOutputs
        sid = some out) ∧
    (succ = false →
      getEntry (processOneStep persistOk g exec parallel group initialInput st sid).1.stepOutputs
        sid = getEntry st.stepOutputs sid) := by
  unfold processOneStep
  dsimp only
  rw [hres]
  cases succ with
  | true =>
    cases hbr : getEntry out "branch" with
    | none =>
      by_cases hcrit : criticalFlag ((getEntry g sid).getD default).step <;>
        simp [hcrit, mem_addToSet, getEntry_setEntry_self]
    | some bv =>
      by_cases hcrit : criticalFlag ((getEntry g sid).getD default).step <;>
        simp [hcrit, mem_addToSet, getEntry_setEntry_self]
  | false =>
    cases hbr : getEntry out "branch" with
    | none =>
      by_cases hcrit : criticalFlag ((getEntry g sid).getD default).step <;>
        simp [hcrit, mem_addToSet, getEntry_setEntry_self]
    | some bv =>
      by_cases hcrit : criticalFlag ((getEntry g sid).getD default).step <;>
        simp [hcrit, mem_addToSet, getEntry_setEntry_self]

/-- Witness for C4's amended statement: a failing step is in `completed`, its
failed result is recorded, and no output is stored for it. -/
theorem completed_set_semantics_witness :
    "X" ∈ (processOneStep (fun _ => true)
      (buildDependencyGraph [⟨"X", "X", "script", [], none, []⟩] [])
      (fun _ _ => (false, [("error", .s "boom")])) false []
      [] (initialState []) "X").1.completed :=
  (completed_set_semantics (fun _ => true)
    (buildDependencyGraph [⟨"X", "X", "script", [], none, []⟩] [])
    (fun _ _ => (false, [("error", .s "boom")])) false []
    [] (initialState []) "X" false [("error", .s "boom")] rfl).1

/-! ## C2: critical-failure escalation -/

/-- The abort flag returned for one step is exactly "the step failed and its
top-level `critical` entry is truthy". -/
theorem processOneStep_snd (persistOk : Nat → Bool) (g : Graph)
    (exec : String → Dict → Bool × Dict) (parallel : Bool) (group : List String)
    (initialInput : Dict) (st : EngineState) (sid : String) :
    (processOneStep persistOk g exec parallel group initialInput st sid).2 =
      (!(exec sid (getStepInput sid g st.stepOutputs
          (if parallel then (getEntry st.stepOutputs "__initial__").getD [] else initialInput))).1 &&
        criticalFlag ((getEntry g sid).getD default).step) := by
  unfold processOneStep
  dsimp only
  by_cases h : (!(exec sid (getStepInput sid g st.stepOutputs
      (if parallel then (getEntry st.stepOutputs "__initial__").getD [] else initialInput))).1 &&
      criticalFlag ((getEntry g sid).getD default).step) = true <;>
    simp [h]

theorem processBatch_abort (persistOk : Nat → Bool) (g : Graph)
    (exec : String → Dict → Bool × Dict) (parallel : Bool) (group : List String)
    (initialInput : Dict) (st : EngineState) (sid : String) (rest : List String)
    (nd : GraphNode) (hnd : getEntry g sid = some nd)
    (hcrit : criticalFlag nd.step = true) (hfail : ∀ inp, (exec sid inp).1 = false) :
    processBatch persistOk g exec parallel group initialInput (sid :: rest) st =
      ((processOneStep persistOk g exec parallel group initialInput st sid).1, true) := by
  have habort : (processOneStep persistOk g exec parallel group initialInput st sid).2 = true := by
    rw [processOneStep_snd, hfail, hnd]
    simp [hcrit]
  unfold processBatch
  dsimp only
  rw [habort]
  simp

theorem runLoop_abort (persistOk : Nat → Bool) (g : Graph)
    (exec : String → Dict → Bool × Dict) (initialInput : Dict) (fuel : Nat)
    (st : EngineState) (sid : String) (rest sk : List String) (nd : GraphNode)
    (h : getNextSteps g st.completed st.skipped st.stepOutputs = (sid :: rest, sk))
    (hnd : getEntry g sid = some nd) (hcrit : criticalFlag nd.step = true)
    (hfail : ∀ inp, (exec sid inp).1 = false) :
    (runLoop persistOk g exec initialInput (fuel + 1) st).2 = false := by
  simp only [runLoop]
  rw [h]
  dsimp only
  rw [processBatch_abort persistOk g exec _ _ initialInput _ sid rest nd hnd hcrit hfail]
  simp

theorem processBatch_no_critical (persistOk : Nat → Bool) (g : Graph)
    (exec : String → Dict → Bool × Dict) (parallel : Bool) (group : List String)
    (initialInput : Dict) :
    ∀ (batch : List String) (st : EngineState),
      (∀ sid ∈ batch, ∀ nd, getEntry g sid = some nd → criticalFlag nd.step = false) →
      (processBatch persistOk g exec parallel group initialInput batch st).2 = false := by
  intro batch
  induction batch with
  | nil => intro st _; rfl
  | cons sid rest ih =>
    intro st hnc
    have hflag : criticalFlag ((getEntry g sid).getD default).step = false := by
      cases hg : getEntry g sid with
      | none => rfl
      | some nd => exact hnc sid (List.mem_cons_self _ _) nd hg
    have hsnd : (processOneStep persistOk g exec parallel group initialInput st sid).2 = false := by
      rw [processOneStep_snd, hflag]
      simp
    unfold processBatch
    dsimp only
    rw [hsnd]
    simp only [Bool.false_eq_true, if_false]
    exact ih _ fun s hs => hnc s (List.mem_cons_of_mem _ hs)

/-- C2 counterexample: a workflow whose step X carries `critical: true` inside
its `config` map (but not at the step's top level) fails, yet the engine does
not abort — the successor Y is still executed and completed, contradicting the
claim that steps beyond the critical failure stay unprocessed. -/
theorem critical_config_counterexample :
    ((executeWorkflowGraph (fun _ => true)
        (buildDependencyGraph
          [⟨"X", "X", "script", [("critical", .b true)], none, []⟩,
           ⟨"Y", "Y", "script", [], none, []⟩]
          [⟨"X", "Y", none⟩])
        (fun sid _ => if sid = "X" then (false, [("error", .s "boom")]) else (true, []))
        [] 5).1.completed = ["X", "Y"]) ∧
    ((getEntry (executeWorkflowGraph (fun _ => true)
        (buildDependencyGraph
          [⟨"X", "X", "script", [("critical", .b true)], none, []⟩,
           ⟨"Y", "Y", "script", [], none, []⟩]
          [⟨"X", "Y", none⟩])
        (fun sid _ => if sid = "X" then (false, [("error", .s "boom")]) else (true, []))
        [] 5).1.stepsResults "X").map (fun r => r.success) = some false) ∧
    (getEntry ([("critical", JVal.b true)] : Dict) "critical" = some (.b true)) :=
  ⟨rfl, rfl, rfl⟩

/-- C2 amended: the engine reads the critical flag from the step dict's
top-level `critical` entry (under Python truthiness), not from its `config`
map. When a step whose top-level flag is truthy finishes with `success =
False`, the batch aborts immediately at that step (the remaining ready steps
are not processed) and the tick loop returns overall failure; steps without a
truthy top-level flag never trigger the abort. -/
theorem critical_escalation_semantics (persistOk : Nat → Bool) (g : Graph)
    (exec : String → Dict → Bool × Dict) (initialInput : Dict) :
    (∀ (parallel : Bool) (group : List String) (st : EngineState) (sid : String)
        (rest : List String) (nd : GraphNode),
      getEntry g sid = some nd → criticalFlag nd.step = true →
      (∀ inp, (exec sid inp).1 = false) →
      processBatch persistOk g exec parallel group initialInput (sid :: rest) st =
        ((processOneStep persistOk g exec parallel group initialInput st sid).1, true)) ∧
    (∀ (fuel : Nat) (st : EngineState) (sid : String) (rest sk : List String) (nd : GraphNode),
      getNextSteps g st.completed st.skipped st.stepOutputs = (sid :: rest, sk) →
      getEntry g sid = some nd → criticalFlag nd.step = true →
      (∀ inp, (exec sid inp).1 = false) →
      (runLoop persistOk g exec initialInput (fuel + 1) st).2 = false) ∧
    (∀ (parallel : Bool) (group : List String) (batch : List String) (st : EngineState),
      (∀ sid ∈ batch, ∀ nd, getEntry g sid = some nd → criticalFlag nd.step = false) →
      (processBatch persistOk g exec parallel group initialInput batch st).2 = false) :=
  ⟨fun parallel group st sid rest nd hnd hcrit hfail =>
      processBatch_abort persistOk g exec parallel group initialInput st sid rest nd
        hnd hcrit hfail,
   fun fuel st sid rest sk nd h hnd hcrit hfail =>
      runLoop_abort persistOk g exec initialInput fuel st sid rest sk nd h hnd hcrit hfail,
   fun parallel group batch st hnc =>
      processBatch_no_critical persistOk g exec parallel group initialInput batch st hnc⟩

/-- Witness for C2's amended statement: a failing step whose top-level
`critical` is `true` aborts its batch immediately. -/
theorem critical_escalation_semantics_witness :
    (processBatch (fun _ => true)
      (buildDependencyGraph
        [⟨"X", "X", "script", [], some (.b true), []⟩, ⟨"Y", "Y", "script", [], none, []⟩]
        [⟨"X", "Y", none⟩])
      (fun _ _ => (false, [("error", .s "boom")])) false ["X"] [] ["X"]
      (initialState [])).2 = true := by
  rw [(critical_escalation_semantics (fun _ => true)
    (buildDependencyGraph
      [⟨"X", "X", "script", [], some (.b true), []⟩, ⟨"Y", "Y", "script", [], none, []⟩]
      [⟨"X", "Y", none⟩])
    (fun _ _ => (false, [("error", .s "boom")])) []).1 false ["X"] (initialState []) "X" []
    { predecessors := [], successors := ["Y"], conditionalSuccessors := []
      step := ⟨"X", "X", "script", [], some (.b true), []⟩ }
    rfl rfl (fun _ => rfl)]

/-! ## C3: missing graph validation (code bug) -/

/-- C3 (code bug): `_build_dependency_graph` performs no validation and no
`ValidationError` exists on this code path. On the cyclic definition
`A → B, B → A` the engine immediately finds no ready step, executes nothing,
and reports overall success; on a definition whose connection references the
undefined step `Z` it likewise runs and reports success instead of failing
fast. -/
theorem graph_validation_missing :
    ((executeWorkflowGraph (fun _ => true)
        (buildDependencyGraph
          [⟨"A", "A", "script", [], none, []⟩, ⟨"B", "B", "script", [], none, []⟩]
          [⟨"A", "B", none⟩, ⟨"B", "A", none⟩])
        (fun _ _ => (true, [])) [] 5).1.stepsResults = []) ∧
    ((executeWorkflowGraph (fun _ => true)
        (buildDependencyGraph
          [⟨"A", "A", "script", [], none, []⟩, ⟨"B", "B", "script", [], none, []⟩]
          [⟨"A", "B", none⟩, ⟨"B", "A", none⟩])
        (fun _ _ => (true, [])) [] 5).1.completed = []) ∧
    ((executeWorkflowGraph (fun _ => true)
        (buildDependencyGraph
          [⟨"A", "A", "script", [], none, []⟩, ⟨"B", "B", "script", [], none, []⟩]
          [⟨"A", "B", none⟩, ⟨"B", "A", none⟩])
        (fun _ _ => (true, [])) [] 5).2 = true) ∧
    ((executeWorkflowGraph (fun _ => true)
        (buildDependencyGraph [⟨"A", "A", "script", [], none, []⟩] [⟨"A", "Z", none⟩])
        (fun _ _ => (true, [])) [] 5).1.completed = ["A"]) ∧
    ((executeWorkflowGraph (fun _ => true)
        (buildDependencyGraph [⟨"A", "A", "script", [], none, []⟩] [⟨"A", "Z", none⟩])
        (fun _ _ => (true, [])) [] 5).2 = true) :=
  ⟨rfl, rfl, rfl, rfl, rfl⟩

/-! ## C7: cancellation checkpoint never taken (code bug) -/

/-- C7 (code bug): the tick loop never reads the Execution row's status, so a
status of `"cancelled"` does not stop the run: the step is still dispatched
and completed, and the loop's behaviour is identical under the `"cancelled"`
and `"running"` statuses. -/
theorem cancellation_not_checked :
    ((runLoopWithStatus "cancelled" (fun _ => true)
        (buildDependencyGraph [⟨"A", "A", "script", [], none, []⟩] [])
        (fun _ _ => (true, [("ok", .b true)])) [] 5 (initialState [])).1.completed = ["A"]) ∧
    ((getEntry (runLoopWithStatus "cancelled" (fun _ => true)
        (buildDependencyGraph [⟨"A", "A", "script", [], none, []⟩] [])
        (fun _ _ => (true, [("ok", .b true)])) [] 5 (initialState [])).1.stepsResults "A").map
      (fun r => r.success) = some true) ∧
    (runLoopWithStatus "cancelled" (fun _ => true)
        (buildDependencyGraph [⟨"A", "A", "script", [], none, []⟩] [])
        (fun _ _ => (true, [("ok", .b true)])) [] 5 (initialState []) =
      runLoopWithStatus "running" (fun _ => true)
        (buildDependencyGraph [⟨"A", "A", "script", [], none, []⟩] [])
        (fun _ _ => (true, [("ok", .b true)])) [] 5 (initialState [])) :=
  ⟨rfl, rfl, rfl⟩

/-! ## C6: broadcast failure isolation -/

/-- C6 counterexample: a `broadcast_log` exception for the `step_completed`
event, raised inside `_execute_step`'s `try` block after the handler already
succeeded, is caught by the step-level handler and recorded as the step's
failure — contradicting "never recorded as a step failure". -/
theorem broadcast_isolated_counterexample :
    executeStep ⟨false, true⟩ (.ok [("result", .s "ok")]) =
      (false, errOutput "broadcast step_completed raised") := rfl

/-- C6 amended: broadcast exceptions are isolated only inside `_log_execution`
(caught, only locally logged, never re-raised); a `broadcast_log` exception
raised directly inside `_execute_step`'s `try` turns the step into a failure
even when its handler succeeded, and an exception from
`broadcast_run_completion` propagates out of `execute_workflow`. -/
theorem broadcast_failure_semantics :
    (∀ p : Bool, (logExecution p true).raised = false) ∧
    (∀ out : Dict, executeStep ⟨false, true⟩ (.ok out) =
      (false, errOutput "broadcast step_completed raised")) ∧
    (∀ out : Dict, executeStep ⟨true, false⟩ (.ok out) =
      (false, errOutput "broadcast step_started raised")) ∧
    (∀ s : Bool, executeWorkflowCompletion true s = .error "broadcast_run_completion raised") ∧
    (∀ s : Bool, executeWorkflowCompletion false s = .ok s) :=
  ⟨fun p => by cases p <;> rfl, fun _ => rfl, fun _ => rfl, fun _ => rfl, fun _ => rfl⟩

/-! ## C5: scheduler idempotency window (code bug at minute 59) -/

/-- C5 (code bug): for a schedule with cron `* * * * *`, two scans inside
calendar minute 59 of the hour (here at 00:59:10 and 00:59:40, i.e. 3550 s and
3590 s) create no Execution at all, because `_is_already_executed` computes
`window_end` with `replace(minute=minute+1)`, which raises `ValueError` for
minute 59; the per-schedule handler swallows the error and skips the trigger.
In an ordinary minute (here minute 5, scans at 310 s and 340 s) the same
double scan creates exactly one Execution, as the claim expects. -/
theorem scheduler_minute59_bug :
    (processSchedule [] ⟨"s1", "w1"⟩ 3550 = []) ∧
    (processSchedule (processSchedule [] ⟨"s1", "w1"⟩ 3550) ⟨"s1", "w1"⟩ 3590 = []) ∧
    (isAlreadyExecuted [] ⟨"s1", "w1"⟩ (cronPrevEveryMinute 3550) =
      .error "ValueError: minute must be in 0..59") ∧
    ((executionsInMinute
        (processSchedule (processSchedule [] ⟨"s1", "w1"⟩ 3550) ⟨"s1", "w1"⟩ 3590)
        ⟨"s1", "w1"⟩ 59).length = 0) ∧
    ((executionsInMinute
        (processSchedule (processSchedule [] ⟨"s1", "w1"⟩ 310) ⟨"s1", "w1"⟩ 340)
        ⟨"s1", "w1"⟩ 5).length = 1) :=
  ⟨rfl, rfl, rfl, rfl, rfl⟩

/-! ## C10: log-persistence failures never alter a run -/

theorem core_emitLog (p : Nat → Bool) (st : EngineState) (l m : String) :
    (emitLog p st l m).core = st.core := rfl

theorem anyStepFailed_core {st₁ st₂ : EngineState} (h : st₁.core = st₂.core) :
    anyStepFailed st₁ = anyStepFailed st₂ := by
  obtain ⟨c₁, s₁, o₁, r₁, b₁, lc₁, pl₁⟩ := st₁
  obtain ⟨c₂, s₂, o₂, r₂, b₂, lc₂, pl₂⟩ := st₂
  simp only [EngineState.core, Prod.mk.injEq] at h
  obtain ⟨hc, hs, ho, hr, hb⟩ := h
  subst hc hs ho hr hb
  rfl

theorem processOneStep_core (p₁ p₂ : Nat → Bool) (g : Graph)
    (exec : String → Dict → Bool × Dict) (parallel : Bool) (group : List String)
    (initialInput : Dict) {st₁ st₂ : EngineState} (h : st₁.core = st₂.core) (sid : String) :
    (processOneStep p₁ g exec parallel group initialInput st₁ sid).1.core =
      (processOneStep p₂ g exec parallel group initialInput st₂ sid).1.core ∧
    (processOneStep p₁ g exec parallel group initialInput st₁ sid).2 =
      (processOneStep p₂ g exec parallel group initialInput st₂ sid).2 := by
  obtain ⟨c₁, s₁, o₁, r₁, b₁, lc₁, pl₁⟩ := st₁
  obtain ⟨c₂, s₂, o₂, r₂, b₂, lc₂, pl₂⟩ := st₂
  simp only [EngineState.core, Prod.mk.injEq] at h
  obtain ⟨hc, hs, ho, hr, hb⟩ := h
  subst hc hs ho hr hb
  unfold processOneStep
  dsimp only
  generalize exec sid (getStepInput sid g o₁
    (if parallel then (getEntry o₁ "__initial__").getD [] else initialInput)) = res
  obtain ⟨succ, out⟩ := res
  cases succ <;> cases hbr : getEntry out "branch" <;>
    by_cases hcrit : criticalFlag ((getEntry g sid).getD default).step = true <;>
      simp [EngineState.core, emitLog, hcrit]

theorem processBatch_core (g : Graph) (exec : String → Dict → Bool × Dict)
    (parallel : Bool) (group : List String) (initialInput : Dict) :
    ∀ (batch : List String) (p₁ p₂ : Nat → Bool) {st₁ st₂ : EngineState},
      st₁.core = st₂.core →
      (processBatch p₁ g exec parallel group initialInput batch st₁).1.core =
        (processBatch p₂ g exec parallel group initialInput batch st₂).1.core ∧
      (processBatch p₁ g exec parallel group initialInput batch st₁).2 =
        (processBatch p₂ g exec parallel group initialInput batch st₂).2 := by
  intro batch
  induction batch with
  | nil =>
    intro p₁ p₂ st₁ st₂ h
    exact ⟨h, rfl⟩
  | cons sid rest ih =>
    intro p₁ p₂ st₁ st₂ h
    obtain ⟨hcore, hsnd⟩ := processOneStep_core p₁ p₂ g exec parallel group initialInput h sid
    unfold processBatch
    dsimp only
    rw [hsnd]
    by_cases hab : (processOneStep p₂ g exec parallel group initialInput st₂ sid).2 = true
    · rw [if_pos hab, if_pos hab]
      exact ⟨hcore, rfl⟩
    · rw [if_neg hab, if_neg hab]
      exact ih p₁ p₂ hcore

theorem foldl_skiplog_core (p₁ p₂ : Nat → Bool) :
    ∀ (adds : List String) {t₁ t₂ : EngineState}, t₁.core = t₂.core →
      (adds.foldl (fun s sid => emitLog p₁ s "INFO" ("skip:" ++ sid)) t₁).core =
        (adds.foldl (fun s sid => emitLog p₂ s "INFO" ("skip:" ++ sid)) t₂).core := by
  intro adds
  induction adds with
  | nil => exact fun h => h
  | cons a rest ih =>
    intro t₁ t₂ h
    simp only [List.foldl_cons]
    exact ih (by rw [core_emitLog, core_emitLog, h])

theorem applySkips_core (p₁ p₂ : Nat → Bool) {st₁ st₂ : EngineState}
    (h : st₁.core = st₂.core) (newSkipped : List String) :
    (applySkips p₁ st₁ newSkipped).core = (applySkips p₂ st₂ newSkipped).core := by
  obtain ⟨c₁, s₁, o₁, r₁, b₁, lc₁, pl₁⟩ := st₁
  obtain ⟨c₂, s₂, o₂, r₂, b₂, lc₂, pl₂⟩ := st₂
  simp only [EngineState.core, Prod.mk.injEq] at h
  obtain ⟨hc, hs, ho, hr, hb⟩ := h
  subst hc hs ho hr hb
  exact foldl_skiplog_core p₁ p₂ _ rfl

theorem runLoop_core (g : Graph) (exec : String → Dict → Bool × Dict) (initialInput : Dict) :
    ∀ (fuel : Nat) (p₁ p₂ : Nat → Bool) {st₁ st₂ : EngineState}, st₁.core = st₂.core →
      (runLoop p₁ g exec initialInput fuel st₁).1.core =
        (runLoop p₂ g exec initialInput fuel st₂).1.core ∧
      (runLoop p₁ g exec initialInput fuel st₁).2 =
        (runLoop p₂ g exec initialInput fuel st₂).2 := by
  intro fuel
  induction fuel with
  | zero =>
    intro p₁ p₂ st₁ st₂ h
    exact ⟨h, by simp only [runLoop, anyStepFailed_core h]⟩
  | succ n ih =>
    intro p₁ p₂ st₁ st₂ h
    have h1 : st₁.completed = st₂.completed := congrArg (fun x => x.1) h
    have h2 : st₁.skipped = st₂.skipped := congrArg (fun x => x.2.1) h
    have h3 : st₁.stepOutputs = st₂.stepOutputs := congrArg (fun x => x.2.2.1) h
    unfold runLoop
    dsimp only
    rw [h1, h2, h3]
    have hA : (applySkips p₁ st₁
        (getNextSteps g st₂.completed st₂.skipped st₂.stepOutputs).2).core =
      (applySkips p₂ st₂
        (getNextSteps g st₂.completed st₂.skipped st₂.stepOutputs).2).core :=
      applySkips_core p₁ p₂ h _
    by_cases hempty :
        (getNextSteps g st₂.completed st₂.skipped st₂.stepOutputs).1.isEmpty = true
    · rw [if_pos hempty, if_pos hempty]
      exact ⟨hA, by rw [anyStepFailed_core hA]⟩
    · rw [if_neg hempty, if_neg hempty]
      have hU : (if (getNextSteps g st₂.completed st₂.skipped st₂.stepOutputs).1.length > 1
          then emitLog p₁ (applySkips p₁ st₁
            (getNextSteps g st₂.completed st₂.skipped st₂.stepOutputs).2) "INFO" "parallel"
          else applySkips p₁ st₁
            (getNextSteps g st₂.completed st₂.skipped st₂.stepOutputs).2).core =
        (if (getNextSteps g st₂.completed st₂.skipped st₂.stepOutputs).1.length > 1
          then emitLog p₂ (applySkips p₂ st₂
            (getNextSteps g st₂.completed st₂.skipped st₂.stepOutputs).2) "INFO" "parallel"
          else applySkips p₂ st₂
            (getNextSteps g st₂.completed st₂.skipped st₂.stepOutputs).2).core := by
        by_cases hpar :
            (getNextSteps g st₂.completed st₂.skipped st₂.stepOutputs).1.length > 1
        · rw [if_pos hpar, if_pos hpar, core_emitLog, core_emitLog]
          exact hA
        · rw [if_neg hpar, if_neg hpar]
          exact hA
      obtain ⟨hbc, hbs⟩ := processBatch_core g exec
        ((getNextSteps g st₂.completed st₂.skipped st₂.stepOutputs).1.length > 1)
        (getNextSteps g st₂.completed st₂.skipped st₂.stepOutputs).1 initialInput
        (getNextSteps g st₂.completed st₂.skipped st₂.stepOutputs).1 p₁ p₂ hU
      rw [hbs]
      by_cases hab : (processBatch p₂ g exec
          ((getNextSteps g st₂.completed st₂.skipped st₂.stepOutputs).1.length > 1)
          (getNextSteps g st₂.completed st₂.skipped st₂.stepOutputs).1 initialInput
          (getNextSteps g st₂.completed st₂.skipped st₂.stepOutputs).1
          (if (getNextSteps g st₂.completed st₂.skipped st₂.stepOutputs).1.length > 1
            then emitLog p₂ (applySkips p₂ st₂
              (getNextSteps g st₂.completed st₂.skipped st₂.stepOutputs).2) "INFO" "parallel"
            else applySkips p₂ st₂
              (getNextSteps g st₂.completed st₂.skipped st₂.stepOutputs).2)).2 = true
      · rw [if_pos hab, if_pos hab]
        exact ⟨hbc, rfl⟩
      · rw [if_neg hab, if_neg hab]
        exact ih p₁ p₂ hbc

/-- C10: log-persistence failures never alter a run. A failing transactional
append inside `_log_execution` is caught, rolled back, skips that event's
broadcast and raises nothing; and the engine's run — completed and skipped
sets, step outputs, recorded results, branches taken, and overall success —
is identical under any two patterns of log-persistence outcomes. -/
theorem log_failure_isolated :
    (∀ b : Bool, logExecution true b =
      { committed := false, rolledBack := true, broadcastDelivered := false, raised := false }) ∧
    (∀ (p₁ p₂ : Nat → Bool) (g : Graph) (exec : String → Dict → Bool × Dict)
        (initialInput : Dict) (fuel : Nat),
      (executeWorkflowGraph p₁ g exec initialInput fuel).1.core =
        (executeWorkflowGraph p₂ g exec initialInput fuel).1.core ∧
      (executeWorkflowGraph p₁ g exec initialInput fuel).2 =
        (executeWorkflowGraph p₂ g exec initialInput fuel).2) :=
  ⟨fun _ => rfl,
   fun p₁ p₂ g exec initialInput fuel =>
     runLoop_core g exec initialInput fuel p₁ p₂
       (show (emitLog p₁ (initialState initialInput) "INFO" "workflow_start").core =
           (emitLog p₂ (initialState initialInput) "INFO" "workflow_start").core from rfl)⟩

end AgentFunctions
